import Mathlib

/-!
Shallow embedding of the core logic of the pdf-tools-suite repository:
the text-overlay processor (`src/unnamed/part_002`, a `TextOverlayProcessor`
class) and the EDI-manifest loader (`src/server.js`, `processEdiFile`).

Conventions of the embedding:
* JavaScript strings are Lean `String`s, manipulated through `List Char`.
* File sizes in megabytes are rationals (`ℚ`); `getFileSizeMB` divides a
  byte count by `1024 * 1024` exactly as the source does.
* File bytes are modelled as `Blob` (a list of byte values); external
  compression tools are an environment `String → AttemptOutcome` mapping a
  strategy name to what running its command produced on disk.
* Fallible code returns `Except`/`Option`; JavaScript `try`/`catch` blocks
  become case analysis on those results.
-/

namespace PdfTools

/-! ## String helpers mirroring the JavaScript string operations used -/

/-- ASCII whitespace, the characters JavaScript's `\s` and `String.prototype.trim`
treat as whitespace (restricted to ASCII, which is all the source data uses). -/
def isWSChar (c : Char) : Bool :=
  c = ' ' || c = '\t' || c = '\n' || c = '\r' || c = '\x0b' || c = '\x0c'

/-- Case-insensitive character comparison, for the `/i` regex flag. -/
def ciEq (a b : Char) : Bool := a.toLower = b.toLower

/-- Match a literal (case-insensitively) at the head of the input, returning
the rest of the input on success. -/
def litCI : List Char → List Char → Option (List Char)
  | [], s => some s
  | _, [] => none
  | p :: ps, c :: cs => if ciEq p c then litCI ps cs else none

/-- JavaScript `String.prototype.trim`: drop whitespace from both ends. -/
def trimJS (s : String) : String :=
  ⟨((s.data.dropWhile isWSChar).reverse.dropWhile isWSChar).reverse⟩

/-- Does `s` end with `suf` (on character lists)? Used for the
`imagePath.toLowerCase().endsWith(...)` checks. -/
def hasSuffixCL (s suf : List Char) : Bool :=
  decide (s.drop (s.length - suf.length) = suf)

/-- JavaScript `String.prototype.toLowerCase` (ASCII). -/
def lowerJS (s : String) : String := ⟨s.data.map Char.toLower⟩

/-- JavaScript `String(n).padStart(2, '0')` for a natural number. -/
def padStart2 (n : Nat) : String :=
  if n < 10 then "0" ++ toString n else toString n

/-! ## Shipment data extraction (`extractShipmentData`, part_002 lines 362-403)

The two regexes of the source are embedded as deterministic scanners.  Both
patterns backtrack trivially (every bounded repetition is over a character
class that excludes the character that follows it), so a greedy left-to-right
scan computes exactly the JavaScript leftmost match. -/

/-- Character class `[A-Z0-9]` under the `/i` flag: ASCII letters and digits. -/
def isAlnumChar (c : Char) : Bool := c.isAlpha || c.isDigit

/-- Attempt the pattern `Container\s*\/?\s*Trailer:\s*([A-Z0-9]+)` (flag `i`)
at the head of the input, returning the capture group. -/
def matchContainerAt (s : List Char) : Option (List Char) := do
  let rest ← litCI "Container".data s
  let rest := rest.dropWhile isWSChar
  let rest := match rest with
    | '/' :: r => r
    | r => r
  let rest := rest.dropWhile isWSChar
  let rest ← litCI "Trailer:".data rest
  let rest := rest.dropWhile isWSChar
  let cap := rest.takeWhile isAlnumChar
  if cap.isEmpty then none else some cap

/-- Leftmost match of the container regex over the whole text
(JavaScript `fullText.match(...)`, first capture group). -/
def findContainer : List Char → Option (List Char)
  | [] => none
  | c :: cs =>
    match matchContainerAt (c :: cs) with
    | some cap => some cap
    | none => findContainer cs

/-- Parse `\d{2}[./]\d{2}[./]\d{4}` at the head of the input, returning the
matched ten characters. -/
def matchDateAt (s : List Char) : Option (List Char) :=
  match s with
  | d1 :: d2 :: s1 :: d3 :: d4 :: s2 :: y1 :: y2 :: y3 :: y4 :: _ =>
    if d1.isDigit && d2.isDigit && (s1 = '.' || s1 = '/') &&
       d3.isDigit && d4.isDigit && (s2 = '.' || s2 = '/') &&
       y1.isDigit && y2.isDigit && y3.isDigit && y4.isDigit then
      some [d1, d2, s1, d3, d4, s2, y1, y2, y3, y4]
    else none
  | _ => none

/-- Attempt the pattern
`Arriving per\s+([^(]+)\([^)]+\)\s+on\s+(\d{2}[./]\d{2}[./]\d{4})` (flag `i`)
at the head of the input, returning the two capture groups
(raw ship name, raw date). -/
def matchArrivalAt (s : List Char) : Option (List Char × List Char) := do
  let rest ← litCI "Arriving per".data s
  let ws1 := rest.takeWhile isWSChar
  if ws1.isEmpty then none else
  let rest := rest.dropWhile isWSChar
  let cap1 := rest.takeWhile (fun c => c ≠ '(')
  if cap1.isEmpty then none else
  match rest.dropWhile (fun c => c ≠ '(') with
  | '(' :: rest =>
    let inner := rest.takeWhile (fun c => c ≠ ')')
    if inner.isEmpty then none else
    match rest.dropWhile (fun c => c ≠ ')') with
    | ')' :: rest =>
      let ws2 := rest.takeWhile isWSChar
      if ws2.isEmpty then none else
      let rest := rest.dropWhile isWSChar
      match litCI "on".data rest with
      | none => none
      | some rest =>
        let ws3 := rest.takeWhile isWSChar
        if ws3.isEmpty then none else
        let rest := rest.dropWhile isWSChar
        match matchDateAt rest with
        | some date => some (cap1, date)
        | none => none
    | _ => none
  | _ => none

/-- Leftmost match of the arrival regex over the whole text. -/
def findArrival : List Char → Option (List Char × List Char)
  | [] => none
  | c :: cs =>
    match matchArrivalAt (c :: cs) with
    | some r => some r
    | none => findArrival cs

/-- The record built by `extractShipmentData` (part_002 lines 389-395). -/
structure ShipmentData where
  containerNumber : String
  shipName : String
  arrivalDate : String
  mvField : String
  todaysDate : String
  deriving Repr, DecidableEq

/-- Replace every `/` by `.` (JavaScript `date.replace(/\//g, '.')`). -/
def slashesToDots (s : List Char) : List Char :=
  s.map (fun c => if c = '/' then '.' else c)

/-- Embedding of `extractShipmentData` (part_002 lines 362-403) applied to the
extracted full text of the first PDF.  The wall clock is passed in as the
`day`/`month`/`year` components that `new Date()` would have produced. -/
def extractShipmentData (fullText : String) (day month year : Nat) : ShipmentData :=
  let containerNumber : String :=
    match findContainer fullText.data with
    | some cap => ⟨cap⟩
    | none => "CAAU7611844"
  let (shipName, arrivalDate) : String × String :=
    match findArrival fullText.data with
    | some (rawName, rawDate) => (trimJS ⟨rawName⟩, ⟨slashesToDots rawDate⟩)
    | none => ("BG Orange", "12.06.2025")
  let todaysDate := padStart2 day ++ "/" ++ padStart2 month ++ "/" ++ toString year
  { containerNumber := containerNumber
    shipName := shipName
    arrivalDate := arrivalDate
    mvField := shipName ++ " " ++ arrivalDate
    todaysDate := todaysDate }

/-! ## Compression pipeline (`advancedCompress`, part_002 lines 405-502)

The external tools are abstracted into an environment `env : String →
AttemptOutcome` giving, for each strategy name, what running its shell
command left at `outputPath`: the command threw or timed out (`errored`),
exited without producing the output file (`noFile`), or produced a file
(`produced b`).  The loop of `advancedCompress` over its `methods` array is
embedded as `tryMethods`, which also records the trace of attempted strategy
names in order. -/

/-- Bytes of a file on disk. -/
structure Blob where
  data : List Nat
  deriving Repr, DecidableEq

/-- `getFileSizeMB` (part_002 lines 531-534): byte count over `1024 * 1024`. -/
def Blob.sizeMB (b : Blob) : ℚ := (b.data.length : ℚ) / (1024 * 1024)

/-- What one external compression command did. -/
inductive AttemptOutcome where
  | errored
  | noFile
  | produced (b : Blob)
  deriving Repr, DecidableEq

/-- One entry of the `methods` array: a strategy name and its shell command. -/
structure CompressMethod where
  name : String
  command : String
  deriving Repr, DecidableEq

/-- `getGhostscriptCommand` (part_002 lines 484-495). -/
def getGhostscriptCommand (inputPath outputPath quality : String) : String :=
  let gsQuality :=
    if quality = "screen" then "/screen"
    else if quality = "ebook" then "/ebook"
    else if quality = "printer" then "/printer"
    else if quality = "prepress" then "/prepress"
    else "/screen"
  "gs -sDEVICE=pdfwrite -dCompatibilityLevel=1.4 -dPDFSETTINGS=" ++ gsQuality ++
    " -dNOPAUSE -dQUIET -dBATCH -dColorImageResolution=72 -dGrayImageResolution=72" ++
    " -dMonoImageResolution=72 -sOutputFile=\"" ++ outputPath ++ "\" \"" ++ inputPath ++ "\""

/-- `getImageMagickCommand` (part_002 lines 500-502). -/
def getImageMagickCommand (inputPath outputPath : String) (density quality : Nat) : String :=
  "convert -density " ++ toString density ++ " -quality " ++ toString quality ++
    " -compress jpeg \"" ++ inputPath ++ "\" \"" ++ outputPath ++ "\""

/-- The `methods` array of `advancedCompress` (part_002 lines 418-424), in
source order. -/
def compressionMethods (inputPath outputPath : String) : List CompressMethod :=
  [ { name := "ghostscript-screen", command := getGhostscriptCommand inputPath outputPath "screen" },
    { name := "ghostscript-ebook", command := getGhostscriptCommand inputPath outputPath "ebook" },
    { name := "imagemagick-low", command := getImageMagickCommand inputPath outputPath 72 50 },
    { name := "imagemagick-med", command := getImageMagickCommand inputPath outputPath 96 70 },
    { name := "qpdf", command := "qpdf --linearize --optimize-images --compress-streams=y \"" ++
        inputPath ++ "\" \"" ++ outputPath ++ "\"" } ]

/-- The result object returned by `advancedCompress`.  The
`compressionRatio` string of the success branch carries no information beyond
`originalSizeMB`/`finalSizeMB` and is omitted. -/
structure CompressionResult where
  success : Bool
  originalSizeMB : ℚ
  finalSizeMB : ℚ
  method : String
  deriving Repr, DecidableEq

/-- The loop of `advancedCompress` over `methods` (part_002 lines 426-453):
for each method in turn, a command error or timeout is swallowed
(`continue`), a missing output file falls through, an output above target
falls through, and the first output at or below target is returned.  The
second component is the ordered trace of strategy names attempted. -/
def tryMethods (env : String → AttemptOutcome) (target : ℚ) :
    List CompressMethod → Option (String × Blob) × List String
  | [] => (none, [])
  | m :: rest =>
    match env m.name with
    | .errored =>
      let (r, t) := tryMethods env target rest
      (r, m.name :: t)
    | .noFile =>
      let (r, t) := tryMethods env target rest
      (r, m.name :: t)
    | .produced b =>
      if b.sizeMB ≤ target then (some (m.name, b), [m.name])
      else
        let (r, t) := tryMethods env target rest
        (r, m.name :: t)

/-- Embedding of `advancedCompress` (part_002 lines 408-479).  Returns the
`CompressionResult`, the bytes left at `outputPath` when the function
returns, and the ordered list of strategy names attempted.  The outer
`catch` of the source (method `"error"`) only fires when the filesystem
itself fails (`getFileSizeMB`/`copyFileSync` throwing) and is outside this
embedding, whose filesystem operations always succeed. -/
def advancedCompress (env : String → AttemptOutcome) (input : Blob)
    (targetSizeMB : ℚ) (inputPath outputPath : String) :
    CompressionResult × Blob × List String :=
  let originalSizeMB := input.sizeMB
  if originalSizeMB ≤ targetSizeMB then
    ({ success := true, originalSizeMB := originalSizeMB,
       finalSizeMB := originalSizeMB, method := "none" }, input, [])
  else
    match tryMethods env targetSizeMB (compressionMethods inputPath outputPath) with
    | (some (name, b), trace) =>
      ({ success := true, originalSizeMB := originalSizeMB,
         finalSizeMB := b.sizeMB, method := name }, b, trace)
    | (none, trace) =>
      ({ success := false, originalSizeMB := originalSizeMB,
         finalSizeMB := originalSizeMB, method := "fallback" }, input, trace)

/-! ## Overlay rendering (`addTextOverlays`, part_002 lines 240-329)

The signature branch of `addTextOverlays` is governed by the filesystem
state at the configured image path, modelled by `SignatureState`; the
embedding of pdf-lib's `embedPng`/`embedJpg`/`drawImage` succeeding on the
actual image bytes is the flag `embedOk`.  The `throw` for an unsupported
extension happens inside the same `try` whose `catch (signatureError)` only
logs, so no signature failure escapes `addTextOverlays`. -/

/-- Filesystem and image state at `signatureConfig.imagePath`. -/
structure SignatureState where
  imagePath : String
  pathExists : Bool
  embedOk : Bool
  deriving Repr, DecidableEq

/-- The extension dispatch of part_002 lines 255-262 on
`imagePath.toLowerCase()`: `some` for a supported embedder, `none` for the
`throw new Error('Unsupported image format. Use PNG or JPG.')` branch. -/
def sigEmbedKind (imagePath : String) : Option String :=
  let p := (lowerJS imagePath).data
  if hasSuffixCL p ".png".data then some "png"
  else if hasSuffixCL p ".jpg".data || hasSuffixCL p ".jpeg".data then some "jpg"
  else none

/-- Whether the signature image ends up drawn: the path exists, the extension
is supported, and embedding/drawing the bytes succeeded.  In every other
case the inner `catch` (or the `else` logging a missing file) leaves
`signatureAdded` false without failing the file. -/
def signatureAdded (sig : SignatureState) : Bool :=
  sig.pathExists && (sigEmbedKind sig.imagePath).isSome && sig.embedOk

/-- One entry of `overlayConfig.fields` (part_002 lines 37-68). -/
structure OverlayField where
  name : String
  x : ℚ
  y : ℚ
  description : String
  deriving Repr, DecidableEq

/-- The configured `overlayConfig.fields` array. -/
def overlayConfigFields : List OverlayField :=
  [ { name := "mvField", x := 200, y := 720, description := "MV/Ship name and date" },
    { name := "containerNumber", x := 460, y := 384, description := "Container number" },
    { name := "importerDate", x := 80, y := 646, description := "Importer date" },
    { name := "carrierDate", x := 450, y := 148, description := "Carrier date" },
    { name := "signature", x := 100, y := 148, description := "Signature image" } ]

/-- The `switch (field.name)` of part_002 lines 291-305: the text drawn for a
recognized field name, `none` for the `default:` branch (unknown field,
warned and skipped). -/
def fieldText (data : ShipmentData) (name : String) : Option String :=
  if name = "mvField" then some data.mvField
  else if name = "containerNumber" then some data.containerNumber
  else if name = "importerDate" then some data.todaysDate
  else if name = "carrierDate" then some data.todaysDate
  else none

/-- What `addTextOverlays` did: the returned counter, the text overlays
drawn (text, x, y) in order, whether the signature was drawn, and the
unknown-field warnings logged. -/
structure OverlayOutcome where
  overlaysAdded : Nat
  drawnTexts : List (String × ℚ × ℚ)
  sigAdded : Bool
  warnings : List String
  deriving Repr, DecidableEq

/-- Embedding of `addTextOverlays` (part_002 lines 240-329).  Fields named
`signature` are skipped by the explicit `continue`; unknown names hit the
`default:` branch (warning, no draw); recognized names are drawn at the
field's coordinates (`page.drawText` does not fail on the embedded font).
The function itself never throws: all inner errors are caught and logged. -/
def addTextOverlays (sig : SignatureState) (fields : List OverlayField)
    (data : ShipmentData) : OverlayOutcome :=
  let sAdded := signatureAdded sig
  let drawn := fields.filterMap (fun f =>
    if f.name = "signature" then none
    else (fieldText data f.name).map (fun t => (t, f.x, f.y)))
  let warns := (fields.filter (fun f =>
    f.name ≠ "signature" ∧ (fieldText data f.name).isNone)).map (·.name)
  { overlaysAdded := (if sAdded then 1 else 0) + drawn.length
    drawnTexts := drawn
    sigAdded := sAdded
    warnings := warns }

/-- `overlayConfig.targetPageNumber` (part_002 line 21). -/
def targetPageNumber : Nat := 9

/-- The successful payload of `processSinglePDFWithOverlay`. -/
structure ProcessOut where
  overlaysAdded : Nat
  drawnTexts : List (String × ℚ × ℚ)
  sigAdded : Bool
  warnings : List String
  deriving Repr, DecidableEq

/-- Embedding of the overlay phase of `processSinglePDFWithOverlay`
(part_002 lines 167-235) on a loadable PDF with `pageCount` pages: the only
`throw` reachable there is the page-count guard of lines 176-178; after the
overlays the file is always written (compression failure falls back to
copying the original, lines 199-219) and `success: true` is returned, so the
outcome relevant to the claims is the error-or-overlay-outcome. -/
def processSinglePDFWithOverlay (pageCount : Nat) (sig : SignatureState)
    (fields : List OverlayField) (data : ShipmentData) : Except String ProcessOut :=
  if pageCount < targetPageNumber then
    .error ("PDF has only " ++ toString pageCount ++ " pages, but target page is " ++
      toString targetPageNumber)
  else
    let o := addTextOverlays sig fields data
    .ok { overlaysAdded := o.overlaysAdded, drawnTexts := o.drawnTexts,
          sigAdded := o.sigAdded, warnings := o.warnings }

/-! ## Batch orchestration (`processBatch`, part_002 lines 75-162) -/

/-- Per-file data the batch loop keeps on success (`result.finalSizeMB`,
`result.overlaysAdded` of lines 128-133). -/
structure FileOk where
  finalSizeMB : ℚ
  overlaysAdded : Nat
  deriving Repr, DecidableEq

/-- Outcome of `processSinglePDFWithOverlay` for one file as the batch loop
sees it: `result.success` with either the success payload or
`result.error`. -/
def FileResult := Except String FileOk

/-- An entry of `this.successFiles` (part_002 lines 128-133). -/
structure SuccessEntry where
  input : String
  output : String
  sizeMB : ℚ
  overlaysAdded : Nat
  deriving Repr, DecidableEq

/-- An entry of `this.failedFiles` (part_002 lines 136-139). -/
structure FailEntry where
  input : String
  error : String
  deriving Repr, DecidableEq

/-- Split a character list at the last occurrence of `'.'`, for
`path.parse`: `(name, ext)` with `ext` empty when there is no dot or the
only dot leads the name. -/
def splitExtCL (base : List Char) : List Char × List Char :=
  let rev := base.reverse
  let revExt := rev.takeWhile (fun c => c ≠ '.')
  match rev.dropWhile (fun c => c ≠ '.') with
  | '.' :: revName =>
    if revName.isEmpty then (base, [])
    else (revName.reverse, '.' :: revExt.reverse)
  | _ => (base, [])

/-- Embedding of `generateOutputFileName` (part_002 lines 353-357):
`<name>_complete<ext>` joined onto the output folder.  `path.join`'s
normalisation of `.` segments is simplified to plain `/`-joining; the
claims never inspect the folder part. -/
def generateOutputFileName (inputFile outputFolder : String) : String :=
  let base := (inputFile.data.reverse.takeWhile (fun c => c ≠ '/')).reverse
  let (name, ext) := splitExtCL base
  outputFolder ++ "/" ++ (⟨name⟩ : String) ++ "_complete" ++ (⟨ext⟩ : String)

/-- The mutable per-run state of the batch loop: `this.processedCount`,
`this.successFiles`, `this.failedFiles` (reset by the constructor). -/
structure BatchState where
  processed : Nat
  successFiles : List SuccessEntry
  failedFiles : List FailEntry
  deriving Repr, DecidableEq

/-- One iteration of the loop of part_002 lines 119-144. -/
def batchStep (outputFolder : String) (st : BatchState) (file : String × FileResult) :
    BatchState :=
  match file.2 with
  | .ok r =>
    { st with
      processed := st.processed + 1
      successFiles := st.successFiles ++
        [{ input := file.1, output := generateOutputFileName file.1 outputFolder,
           sizeMB := r.finalSizeMB, overlaysAdded := r.overlaysAdded }] }
  | .error e =>
    { st with
      processed := st.processed + 1
      failedFiles := st.failedFiles ++ [{ input := file.1, error := e }] }

/-- The batch loop run from the constructor's fresh state over the
discovered files paired with their per-file results. -/
def runBatch (outputFolder : String) (files : List (String × FileResult)) : BatchState :=
  files.foldl (batchStep outputFolder) { processed := 0, successFiles := [], failedFiles := [] }

/-- The record returned by `processBatch` (part_002 lines 149-156). -/
structure BatchResult where
  success : Bool
  processed : Nat
  successful : Nat
  failed : Nat
  successFiles : List SuccessEntry
  failedFiles : List FailEntry
  deriving Repr, DecidableEq

/-- Embedding of the tail of `processBatch` (part_002 lines 119-156), for a
run that got past shipment-data extraction. -/
def processBatchResult (outputFolder : String) (files : List (String × FileResult)) :
    BatchResult :=
  let st := runBatch outputFolder files
  { success := true, processed := st.processed,
    successful := st.successFiles.length, failed := st.failedFiles.length,
    successFiles := st.successFiles, failedFiles := st.failedFiles }

/-! ## Manifest loading (`processEdiFile`, src/server.js lines 705-730) -/

/-- One spreadsheet row as `sheet_to_json` presents it: the four headers the
loader consults, each possibly absent. -/
structure EdiRow where
  consigneesReference : Option String
  reference : Option String
  consigneesName : Option String
  name : Option String
  deriving Repr, DecidableEq

/-- JavaScript `a || b` on possibly-absent strings: an absent or empty
left operand falls through to the right one. -/
def jsOr : Option String → Option String → Option String
  | some s, b => if s = "" then b else some s
  | none, b => b

/-- `row['Consignees Reference'] || row['Reference']`. -/
def effRef (row : EdiRow) : Option String := jsOr row.consigneesReference row.reference

/-- `row['Consignees Name'] || row['Name']`. -/
def effName (row : EdiRow) : Option String := jsOr row.consigneesName row.name

/-- JavaScript object assignment `m[k] = v`: replace in place when the key
exists, append otherwise. -/
def insertReplace : List (String × String) → String → String → List (String × String)
  | [], k, v => [(k, v)]
  | (k', v') :: rest, k, v =>
    if k' = k then (k, v) :: rest else (k', v') :: insertReplace rest k v

/-- Property lookup `m[k]` on the built manifest object. -/
def lookupManifest (m : List (String × String)) (k : String) : Option String :=
  match m with
  | [] => none
  | (k', v) :: rest => if k' = k then some v else lookupManifest rest k

/-- The `data.forEach` body of `processEdiFile`: the guard
`if (consigneeRef && consigneeName)` (server.js line 718) passes only when
both effective values are truthy — present and non-empty, since the empty
string is falsy in JavaScript — and then stores
`manifest[ref.trim()] = name.trim()`; every other row is skipped. -/
def ediStep (m : List (String × String)) (row : EdiRow) : List (String × String) :=
  match effRef row, effName row with
  | some ref, some nm =>
    if ref = "" ∨ nm = "" then m else insertReplace m (trimJS ref) (trimJS nm)
  | _, _ => m

/-- Forward iteration of `processEdiFile` over the rows. -/
def processEdiAux (acc : List (String × String)) : List EdiRow → List (String × String)
  | [] => acc
  | row :: rest => processEdiAux (ediStep acc row) rest

/-- Embedding of `processEdiFile` (src/server.js lines 705-730): the
manifest object built from the first sheet's rows. -/
def processEdiFile (rows : List EdiRow) : List (String × String) :=
  processEdiAux [] rows

/-- The trimmed references of the rows passing the truthiness guard, in row
order: exactly the keys `processEdiFile` writes. -/
def rowKeys (rows : List EdiRow) : List String :=
  rows.filterMap (fun r =>
    match effRef r, effName r with
    | some a, some b => if a = "" ∨ b = "" then none else some (trimJS a)
    | _, _ => none)

/-! ## Lemmas about the compression loop -/

/-- Whether running one strategy met the size budget: it produced an output
file at or below `target`. -/
def outcomeMeets (target : ℚ) : AttemptOutcome → Bool
  | .produced b => decide (b.sizeMB ≤ target)
  | _ => false

theorem tryMethods_all_fail (env : String → AttemptOutcome) (target : ℚ) :
    ∀ ms : List CompressMethod,
      (∀ m ∈ ms, outcomeMeets target (env m.name) = false) →
      tryMethods env target ms = (none, ms.map (·.name)) := by
  intro ms
  induction ms with
  | nil => intro _; rfl
  | cons m rest ih =>
    intro h
    have hm := h m (List.mem_cons_self m rest)
    have hrest : ∀ m' ∈ rest, outcomeMeets target (env m'.name) = false :=
      fun m' hm' => h m' (List.mem_cons_of_mem m hm')
    cases henv : env m.name with
    | errored => simp [tryMethods, henv, ih hrest]
    | noFile => simp [tryMethods, henv, ih hrest]
    | produced b =>
      have : ¬ b.sizeMB ≤ target := by
        have := hm
        rw [henv] at this
        simpa [outcomeMeets] using this
      simp [tryMethods, henv, this, ih hrest]

theorem tryMethods_first_success (env : String → AttemptOutcome) (target : ℚ)
    (pre : List CompressMethod) (m : CompressMethod) (post : List CompressMethod)
    (b : Blob) (hpre : ∀ m' ∈ pre, outcomeMeets target (env m'.name) = false)
    (henv : env m.name = .produced b) (hb : b.sizeMB ≤ target) :
    tryMethods env target (pre ++ m :: post) =
      (some (m.name, b), pre.map (·.name) ++ [m.name]) := by
  induction pre with
  | nil => simp [tryMethods, henv, hb]
  | cons p ps ih =>
    have hp := hpre p (List.mem_cons_self p ps)
    have hps : ∀ m' ∈ ps, outcomeMeets target (env m'.name) = false :=
      fun m' hm' => hpre m' (List.mem_cons_of_mem p hm')
    cases hpenv : env p.name with
    | errored => simp [tryMethods, hpenv, ih hps]
    | noFile => simp [tryMethods, hpenv, ih hps]
    | produced pb =>
      have : ¬ pb.sizeMB ≤ target := by
        have := hp
        rw [hpenv] at this
        simpa [outcomeMeets] using this
      simp [tryMethods, hpenv, this, ih hps]

theorem tryMethods_success_inv (env : String → AttemptOutcome) (target : ℚ) :
    ∀ ms : List CompressMethod, ∀ nm : String, ∀ b : Blob,
      (tryMethods env target ms).1 = some (nm, b) →
      ∃ m ∈ ms, m.name = nm ∧ env m.name = .produced b ∧ b.sizeMB ≤ target := by
  intro ms
  induction ms with
  | nil => intro nm b h; simp [tryMethods] at h
  | cons m rest ih =>
    intro nm b h
    cases henv : env m.name with
    | errored =>
      rw [tryMethods, henv] at h
      obtain ⟨m', hm', hrest⟩ := ih nm b h
      exact ⟨m', List.mem_cons_of_mem m hm', hrest⟩
    | noFile =>
      rw [tryMethods, henv] at h
      obtain ⟨m', hm', hrest⟩ := ih nm b h
      exact ⟨m', List.mem_cons_of_mem m hm', hrest⟩
    | produced pb =>
      rw [tryMethods, henv] at h
      by_cases hle : pb.sizeMB ≤ target
      · simp [hle] at h
        exact ⟨m, List.mem_cons_self m rest, h.1, by rw [henv, h.2], h.2 ▸ hle⟩
      · simp [hle] at h
        obtain ⟨m', hm', hrest⟩ := ih nm b h
        exact ⟨m', List.mem_cons_of_mem m hm', hrest⟩

/-! ## Claim theorems: compression pipeline -/

/-- C2: for every input whose size is at most `targetSizeMB`,
`advancedCompress` returns immediately with the input bytes unchanged,
`success = true`, `finalSizeMB` equal to the input size and
`method = "none"`, attempting no compression strategy (empty trace). -/
theorem compress_small_identity (env : String → AttemptOutcome) (input : Blob)
    (target : ℚ) (ip op : String) (h : input.sizeMB ≤ target) :
    advancedCompress env input target ip op =
      ({ success := true, originalSizeMB := input.sizeMB,
         finalSizeMB := input.sizeMB, method := "none" }, input, []) := by
  simp [advancedCompress, h]

theorem compress_small_identity_witness :
    advancedCompress (fun _ => AttemptOutcome.errored) (Blob.mk []) (11/10) "in.pdf" "out.pdf" =
      ({ success := true, originalSizeMB := (Blob.mk ([] : List Nat)).sizeMB,
         finalSizeMB := (Blob.mk ([] : List Nat)).sizeMB, method := "none" },
       Blob.mk ([] : List Nat), []) :=
  compress_small_identity _ _ _ _ _ (by norm_num [Blob.sizeMB])

/-- C1: for every input whose size exceeds `targetSizeMB`, if every
compression strategy fails to produce an output at or below `targetSizeMB`,
`advancedCompress` returns the original bytes unchanged with
`method = "fallback"` and `success = false`; the outcome is an ordinary
return value, not an exception. -/
theorem compress_fallback_on_total_failure (env : String → AttemptOutcome)
    (input : Blob) (target : ℚ) (ip op : String)
    (h1 : target < input.sizeMB)
    (h2 : ∀ m ∈ compressionMethods ip op, outcomeMeets target (env m.name) = false) :
    advancedCompress env input target ip op =
      ({ success := false, originalSizeMB := input.sizeMB,
         finalSizeMB := input.sizeMB, method := "fallback" }, input,
       (compressionMethods ip op).map (·.name)) := by
  simp [advancedCompress, not_le.mpr h1, tryMethods_all_fail env target _ h2]

theorem compress_fallback_on_total_failure_witness :
    advancedCompress (fun _ => AttemptOutcome.errored) (Blob.mk [0]) 0 "in.pdf" "out.pdf" =
      ({ success := false, originalSizeMB := (Blob.mk [0]).sizeMB,
         finalSizeMB := (Blob.mk [0]).sizeMB, method := "fallback" }, Blob.mk [0],
       ["ghostscript-screen", "ghostscript-ebook", "imagemagick-low", "imagemagick-med", "qpdf"]) :=
  compress_fallback_on_total_failure _ _ _ _ _ (by norm_num [Blob.sizeMB]) (fun _ _ => rfl)

/-- C3: for every input whose size exceeds `targetSizeMB`,
`advancedCompress` tries the strategies in the fixed order
ghostscript-screen, ghostscript-ebook, imagemagick-low, imagemagick-med,
qpdf; it stops at the first strategy whose output is at or below the
target and returns that strategy's name with `success = true`, discarding
every earlier strategy that errored, timed out, produced no file, or
missed the budget (the attempted trace is exactly the strategies up to and
including the winner). -/
theorem compress_first_success (env : String → AttemptOutcome) (input : Blob)
    (target : ℚ) (ip op : String) (pre : List CompressMethod)
    (m : CompressMethod) (post : List CompressMethod) (b : Blob)
    (h1 : target < input.sizeMB)
    (hsplit : compressionMethods ip op = pre ++ m :: post)
    (hpre : ∀ m' ∈ pre, outcomeMeets target (env m'.name) = false)
    (henv : env m.name = .produced b) (hb : b.sizeMB ≤ target) :
    advancedCompress env input target ip op =
      ({ success := true, originalSizeMB := input.sizeMB,
         finalSizeMB := b.sizeMB, method := m.name }, b,
       pre.map (·.name) ++ [m.name]) ∧
    (compressionMethods ip op).map (·.name) =
      ["ghostscript-screen", "ghostscript-ebook", "imagemagick-low", "imagemagick-med", "qpdf"] := by
  constructor
  · have htry := tryMethods_first_success env target pre m post b hpre henv hb
    simp [advancedCompress, not_le.mpr h1, hsplit, htry]
  · rfl

theorem compress_first_success_witness :
    advancedCompress
        (fun nm => if nm = "ghostscript-screen" then AttemptOutcome.produced (Blob.mk []) else AttemptOutcome.errored)
        (Blob.mk [0]) 0 "in.pdf" "out.pdf" =
      ({ success := true, originalSizeMB := (Blob.mk [0]).sizeMB,
         finalSizeMB := (Blob.mk ([] : List Nat)).sizeMB, method := "ghostscript-screen" },
       Blob.mk ([] : List Nat), ["ghostscript-screen"]) ∧
    (compressionMethods "in.pdf" "out.pdf").map (·.name) =
      ["ghostscript-screen", "ghostscript-ebook", "imagemagick-low", "imagemagick-med", "qpdf"] :=
  compress_first_success
    (fun nm => if nm = "ghostscript-screen" then AttemptOutcome.produced (Blob.mk []) else AttemptOutcome.errored)
    (Blob.mk [0]) 0 "in.pdf" "out.pdf" []
    { name := "ghostscript-screen", command := getGhostscriptCommand "in.pdf" "out.pdf" "screen" }
    ((compressionMethods "in.pdf" "out.pdf").drop 1) (Blob.mk [])
    (by norm_num [Blob.sizeMB]) rfl (fun m' h => absurd h (List.not_mem_nil m')) (by simp) (by norm_num [Blob.sizeMB])

/-- C4: for every input whose size exceeds `targetSizeMB`, the result of
`advancedCompress` never reports an output larger than the input: on
success the final size is at or below the target, on failure the output is
exactly the original input, and in every returned result
`finalSizeMB ≤ originalSizeMB`. -/
theorem compress_never_grows (env : String → AttemptOutcome) (input : Blob)
    (target : ℚ) (ip op : String) (res : CompressionResult) (out : Blob)
    (trace : List String) (h : target < input.sizeMB)
    (heq : advancedCompress env input target ip op = (res, out, trace)) :
    res.originalSizeMB = input.sizeMB ∧
    res.finalSizeMB ≤ res.originalSizeMB ∧
    (res.success = true → res.finalSizeMB ≤ target) ∧
    (res.success = false → out = input ∧ res.finalSizeMB = input.sizeMB) := by
  rw [advancedCompress] at heq
  simp only [not_le.mpr h, if_false] at heq
  rcases htry : tryMethods env target (compressionMethods ip op) with ⟨o, tr⟩
  cases o with
  | none =>
    rw [htry] at heq
    simp only [Prod.mk.injEq] at heq
    obtain ⟨hres, hout, -⟩ := heq
    subst hres; subst hout
    exact ⟨rfl, le_refl _, by simp, fun _ => ⟨rfl, rfl⟩⟩
  | some nb =>
    rcases nb with ⟨nm, b⟩
    rw [htry] at heq
    simp only [Prod.mk.injEq] at heq
    obtain ⟨hres, hout, -⟩ := heq
    subst hres; subst hout
    have hinv := tryMethods_success_inv env target (compressionMethods ip op) nm b
      (by rw [htry])
    obtain ⟨-, -, -, -, hle⟩ := hinv
    exact ⟨rfl, le_trans hle (le_of_lt h), fun _ => hle, by simp⟩

theorem compress_never_grows_witness :
    ((Blob.mk [0]).sizeMB = (Blob.mk [0]).sizeMB ∧
      (Blob.mk [0]).sizeMB ≤ (Blob.mk [0]).sizeMB ∧
      (false = true → (Blob.mk [0]).sizeMB ≤ 0) ∧
      (false = false → Blob.mk [0] = Blob.mk [0] ∧ (Blob.mk [0]).sizeMB = (Blob.mk [0]).sizeMB)) := by
  refine compress_never_grows (fun _ => AttemptOutcome.errored) (Blob.mk [0]) 0 "in.pdf" "out.pdf"
    { success := false, originalSizeMB := (Blob.mk [0]).sizeMB,
      finalSizeMB := (Blob.mk [0]).sizeMB, method := "fallback" }
    (Blob.mk [0]) ["ghostscript-screen", "ghostscript-ebook", "imagemagick-low", "imagemagick-med", "qpdf"]
    (by norm_num [Blob.sizeMB]) ?_
  exact compress_fallback_on_total_failure _ _ _ _ _ (by norm_num [Blob.sizeMB]) (fun _ _ => rfl)

/-- C9: for every environment and input, the result of `advancedCompress`
satisfies `success = true` exactly when `finalSizeMB ≤ targetSizeMB`, and
the bytes left at the output path are always produced: either a strategy's
output meeting the budget or the original input bytes. -/
theorem compress_result_invariant (env : String → AttemptOutcome) (input : Blob)
    (target : ℚ) (ip op : String) (res : CompressionResult) (out : Blob)
    (trace : List String)
    (heq : advancedCompress env input target ip op = (res, out, trace)) :
    (res.success = true ↔ res.finalSizeMB ≤ target) ∧
    (out = input ∨ ∃ m ∈ compressionMethods ip op,
      env m.name = .produced out ∧ out.sizeMB ≤ target) := by
  rw [advancedCompress] at heq
  by_cases hle : input.sizeMB ≤ target
  · simp only [hle, if_true, Prod.mk.injEq] at heq
    obtain ⟨hres, hout, -⟩ := heq
    subst hres; subst hout
    exact ⟨by simpa using hle, Or.inl rfl⟩
  · simp only [hle, if_false] at heq
    rcases htry : tryMethods env target (compressionMethods ip op) with ⟨o, tr⟩
    cases o with
    | none =>
      rw [htry] at heq
      simp only [Prod.mk.injEq] at heq
      obtain ⟨hres, hout, -⟩ := heq
      subst hres; subst hout
      exact ⟨by simpa using hle, Or.inl rfl⟩
    | some nb =>
      rcases nb with ⟨nm, b⟩
      rw [htry] at heq
      simp only [Prod.mk.injEq] at heq
      obtain ⟨hres, hout, -⟩ := heq
      subst hres; subst hout
      have hinv := tryMethods_success_inv env target (compressionMethods ip op) nm b
        (by rw [htry])
      obtain ⟨m, hm, -, henv, hble⟩ := hinv
      exact ⟨by simpa using hble, Or.inr ⟨m, hm, henv, hble⟩⟩

theorem compress_result_invariant_witness :
    ((true = true ↔ (Blob.mk ([] : List Nat)).sizeMB ≤ (11/10 : ℚ)) ∧
      (Blob.mk ([] : List Nat) = Blob.mk ([] : List Nat) ∨
        ∃ m ∈ compressionMethods "in.pdf" "out.pdf",
          (fun _ => AttemptOutcome.errored) m.name = .produced (Blob.mk ([] : List Nat)) ∧
          (Blob.mk ([] : List Nat)).sizeMB ≤ (11/10 : ℚ))) :=
  compress_result_invariant (fun _ => AttemptOutcome.errored) (Blob.mk []) (11/10)
    "in.pdf" "out.pdf"
    { success := true, originalSizeMB := (Blob.mk ([] : List Nat)).sizeMB,
      finalSizeMB := (Blob.mk ([] : List Nat)).sizeMB, method := "none" }
    (Blob.mk []) []
    (compress_small_identity _ _ _ _ _ (by norm_num [Blob.sizeMB]))

/-! ## Lemmas and claim theorems: overlay renderer -/

/-- The number of fields the `switch` recognizes and draws: every field that
is not the `signature` entry and whose name resolves to shipment data. -/
def recognizedTextCount (fields : List OverlayField) (data : ShipmentData) : Nat :=
  (fields.filter (fun f => f.name ≠ "signature" ∧ (fieldText data f.name).isSome)).length

/-- Per-file result as `processBatch` consumes it (part_002 lines 125-141):
the success payload keeps `finalSizeMB` (reported by the compression stage)
and the overlay count. -/
def fileResultOf (p : Except String ProcessOut) (size : ℚ) : FileResult :=
  match p with
  | .ok o => .ok { finalSizeMB := size, overlaysAdded := o.overlaysAdded }
  | .error e => .error e

theorem length_filterMap_eq_filter {α β : Type} (g : α → Option β) (p : α → Bool)
    (hp : ∀ a, (g a).isSome = p a) :
    ∀ l : List α, (l.filterMap g).length = (l.filter p).length := by
  intro l
  induction l with
  | nil => rfl
  | cons a l ih =>
    rw [List.filterMap_cons, List.filter_cons]
    cases hga : g a with
    | none =>
      have hpa : p a = false := by rw [← hp a, hga]; rfl
      simp [hpa, ih]
    | some b =>
      have hpa : p a = true := by rw [← hp a, hga]; rfl
      simp [hpa, ih]

theorem drawnTexts_length (sig : SignatureState) (fields : List OverlayField)
    (data : ShipmentData) :
    (addTextOverlays sig fields data).drawnTexts.length = recognizedTextCount fields data := by
  unfold addTextOverlays recognizedTextCount
  refine length_filterMap_eq_filter _ _ (fun f => ?_) fields
  by_cases hname : f.name = "signature"
  · simp [hname]
  · cases hft : fieldText data f.name <;> simp [hname, hft]

theorem overlaysAdded_eq (sig : SignatureState) (fields : List OverlayField)
    (data : ShipmentData) :
    (addTextOverlays sig fields data).overlaysAdded =
      recognizedTextCount fields data + (if signatureAdded sig then 1 else 0) := by
  have hlen := drawnTexts_length sig fields data
  unfold addTextOverlays at hlen ⊢
  simp only at hlen ⊢
  rw [hlen, Nat.add_comm]

/-- C5: for every document with at least `targetPageNumber` pages and every
field list, the overlay step succeeds; every field whose name maps to known
shipment data is drawn at its configured `(x, y)`, every unknown field name
is warned about and skipped rather than failing the file, and the returned
overlay count is the number of recognized text fields plus one when a valid
signature image was added. -/
theorem renderOverlays_success (pc : Nat) (sig : SignatureState)
    (fields : List OverlayField) (data : ShipmentData)
    (h : targetPageNumber ≤ pc) :
    ∃ out, processSinglePDFWithOverlay pc sig fields data = .ok out ∧
      out.overlaysAdded =
        recognizedTextCount fields data + (if signatureAdded sig then 1 else 0) ∧
      (∀ f ∈ fields, f.name ≠ "signature" →
        ∀ t, fieldText data f.name = some t → (t, f.x, f.y) ∈ out.drawnTexts) ∧
      (∀ f ∈ fields, f.name ≠ "signature" → fieldText data f.name = none →
        f.name ∈ out.warnings) := by
  have hnot : ¬ pc < targetPageNumber := not_lt.mpr h
  refine ⟨{ overlaysAdded := (addTextOverlays sig fields data).overlaysAdded,
            drawnTexts := (addTextOverlays sig fields data).drawnTexts,
            sigAdded := (addTextOverlays sig fields data).sigAdded,
            warnings := (addTextOverlays sig fields data).warnings },
    by rw [processSinglePDFWithOverlay, if_neg hnot], ?_, ?_, ?_⟩
  · exact overlaysAdded_eq sig fields data
  · intro f hf hne t ht
    simp only [addTextOverlays]
    exact List.mem_filterMap.mpr ⟨f, hf, by rw [if_neg hne, ht]; rfl⟩
  · intro f hf hne hnone
    simp only [addTextOverlays]
    refine List.mem_map.mpr ⟨f, List.mem_filter.mpr ⟨hf, ?_⟩, rfl⟩
    simp [hne, hnone]

/-- Shipment data used to instantiate the overlay claims at a concrete input
(the source's own fallback values and a fixed clock). -/
def sampleShipmentData : ShipmentData :=
  { containerNumber := "CAAU7611844", shipName := "BG Orange",
    arrivalDate := "12.06.2025", mvField := "BG Orange 12.06.2025",
    todaysDate := "01/01/2025" }

theorem renderOverlays_success_witness :
    ∃ out, processSinglePDFWithOverlay 9 (SignatureState.mk "./signature.png" false false)
        overlayConfigFields sampleShipmentData = .ok out ∧
      out.overlaysAdded = recognizedTextCount overlayConfigFields sampleShipmentData +
        (if signatureAdded (SignatureState.mk "./signature.png" false false) then 1 else 0) ∧
      (∀ f ∈ overlayConfigFields, f.name ≠ "signature" →
        ∀ t, fieldText sampleShipmentData f.name = some t → (t, f.x, f.y) ∈ out.drawnTexts) ∧
      (∀ f ∈ overlayConfigFields, f.name ≠ "signature" →
        fieldText sampleShipmentData f.name = none → f.name ∈ out.warnings) :=
  renderOverlays_success 9 (SignatureState.mk "./signature.png" false false)
    overlayConfigFields sampleShipmentData (by decide)

/-- C6 counterexample: with an existing signature file whose extension is
`.gif` (neither `.png`, `.jpg` nor `.jpeg`), processing the file does NOT
fail: the unsupported-format error is caught inside `addTextOverlays`
(part_002 lines 279-281), the file returns `success` with only the four
text overlays, and nothing is recorded in the batch failure list. -/
theorem sig_unsupported_counterexample :
    processSinglePDFWithOverlay 9 (SignatureState.mk "./signature.gif" true true)
        overlayConfigFields sampleShipmentData =
      Except.ok (ProcessOut.mk 4
        [("BG Orange 12.06.2025", 200, 720), ("CAAU7611844", 460, 384),
          ("01/01/2025", 80, 646), ("01/01/2025", 450, 148)]
        false []) ∧
    (processBatchResult "./completed"
        [("./a.pdf", fileResultOf (processSinglePDFWithOverlay 9
            (SignatureState.mk "./signature.gif" true true) overlayConfigFields
            sampleShipmentData) 1)]).failedFiles = [] := by
  exact ⟨rfl, rfl⟩

/-- C6 (amended): for every file whose page count reaches the target page,
a missing signature image path is skipped silently and the file succeeds;
an existing path with an unsupported extension raises the
unsupported-format error only inside `addTextOverlays`, where it is caught
and logged: the signature is skipped, the file still succeeds with only the
recognized text overlays counted, and the file lands in the success list of
the batch, never in the failure list. -/
theorem sig_missing_or_unsupported_ok (pc : Nat) (sig : SignatureState)
    (fields : List OverlayField) (data : ShipmentData) (folder fname : String) (s : ℚ)
    (h : targetPageNumber ≤ pc) :
    (sig.pathExists = false →
      ∃ out, processSinglePDFWithOverlay pc sig fields data = .ok out ∧
        out.sigAdded = false ∧ out.overlaysAdded = recognizedTextCount fields data) ∧
    (sig.pathExists = true → sigEmbedKind sig.imagePath = none →
      ∃ out, processSinglePDFWithOverlay pc sig fields data = .ok out ∧
        out.sigAdded = false ∧ out.overlaysAdded = recognizedTextCount fields data ∧
        (processBatchResult folder
          [(fname, fileResultOf (processSinglePDFWithOverlay pc sig fields data) s)]).failedFiles
          = []) := by
  have hnot : ¬ pc < targetPageNumber := not_lt.mpr h
  have hok : processSinglePDFWithOverlay pc sig fields data =
      .ok { overlaysAdded := (addTextOverlays sig fields data).overlaysAdded,
            drawnTexts := (addTextOverlays sig fields data).drawnTexts,
            sigAdded := (addTextOverlays sig fields data).sigAdded,
            warnings := (addTextOverlays sig fields data).warnings } := by
    rw [processSinglePDFWithOverlay, if_neg hnot]
  constructor
  · intro hmiss
    have hsig : signatureAdded sig = false := by
      simp [signatureAdded, hmiss]
    refine ⟨_, hok, ?_, ?_⟩
    · simp [addTextOverlays, hsig]
    · rw [overlaysAdded_eq, hsig]
      simp
  · intro _ hkind
    have hsig : signatureAdded sig = false := by
      simp [signatureAdded, hkind]
    refine ⟨_, hok, ?_, ?_, ?_⟩
    · simp [addTextOverlays, hsig]
    · rw [overlaysAdded_eq, hsig]
      simp
    · rw [hok]
      rfl

theorem sig_missing_or_unsupported_ok_witness :
    ∃ out, processSinglePDFWithOverlay 9 (SignatureState.mk "./signature.gif" true true)
        overlayConfigFields sampleShipmentData = .ok out ∧
      out.sigAdded = false ∧
      out.overlaysAdded = recognizedTextCount overlayConfigFields sampleShipmentData ∧
      (processBatchResult "./completed"
        [("./a.pdf", fileResultOf (processSinglePDFWithOverlay 9
            (SignatureState.mk "./signature.gif" true true) overlayConfigFields
            sampleShipmentData) 1)]).failedFiles = [] :=
  (sig_missing_or_unsupported_ok 9 (SignatureState.mk "./signature.gif" true true)
    overlayConfigFields sampleShipmentData "./completed" "./a.pdf" 1 (by decide)).2 rfl rfl

/-! ## Claim theorems: shipment data extraction -/

/-- The text of end-to-end scenario A, with `/`-separated arrival date. -/
def scenarioTextA : String :=
  "Container/Trailer: ABCD1234567\nArriving per Test Ship (IMO123) on 01/02/2025"

/-- The same scenario with `.`-separated arrival date in the source text. -/
def scenarioTextADots : String :=
  "Container/Trailer: ABCD1234567\nArriving per Test Ship (IMO123) on 01.02.2025"

/-- C7: on scenario A's text the extractor returns
`containerNumber = "ABCD1234567"` and `mvField = "Test Ship 01.02.2025"`;
the arrival date is accepted with either `/` or `.` separators and is
always output with `.` (for every input text, the stored arrival date
contains no `/`), and `mvField` is always the ship name, a space, and the
normalized arrival date. -/
theorem extract_scenarioA :
    ((extractShipmentData scenarioTextA 1 1 2025).containerNumber = "ABCD1234567" ∧
      (extractShipmentData scenarioTextA 1 1 2025).mvField = "Test Ship 01.02.2025" ∧
      (extractShipmentData scenarioTextA 1 1 2025).arrivalDate = "01.02.2025") ∧
    ((extractShipmentData scenarioTextADots 1 1 2025).mvField = "Test Ship 01.02.2025" ∧
      (extractShipmentData scenarioTextADots 1 1 2025).arrivalDate = "01.02.2025") ∧
    (∀ text : String, ∀ d m y : Nat,
      (extractShipmentData text d m y).mvField =
        (extractShipmentData text d m y).shipName ++ " " ++
          (extractShipmentData text d m y).arrivalDate) ∧
    (∀ text : String, ∀ d m y : Nat,
      '/' ∉ ((extractShipmentData text d m y).arrivalDate).data) := by
  refine ⟨⟨rfl, rfl, rfl⟩, ⟨rfl, rfl⟩, ?_, ?_⟩
  · intro text d m y
    cases h : findArrival text.data with
    | none => simp [extractShipmentData, h]
    | some pr =>
      rcases pr with ⟨a, b⟩
      simp [extractShipmentData, h]
  · intro text d m y
    cases h : findArrival text.data with
    | none =>
      simp only [extractShipmentData, h]
      decide
    | some pr =>
      rcases pr with ⟨a, b⟩
      simp only [extractShipmentData, h]
      intro hmem
      obtain ⟨c, -, heq⟩ := List.mem_map.mp hmem
      by_cases hc : c = '/'
      · rw [if_pos hc] at heq
        exact absurd heq (by decide)
      · rw [if_neg hc] at heq
        exact hc heq

/-- A text that contains both scenario phrases verbatim but also an earlier
fragment `Container Trailer: X9`, which the container regex (whose `/` is
optional) matches first. -/
def advTextA : String :=
  "Container Trailer: X9 Container/Trailer: ABCD1234567\nArriving per Test Ship (IMO123) on 01/02/2025"

/-- C7 counterexample: the claim's quantification over every text merely
containing the two phrases fails: `advTextA` contains
`"Container/Trailer: ABCD1234567"` and the arrival phrase verbatim, yet the
extractor returns the earlier leftmost match `"X9"`, not `"ABCD1234567"`. -/
theorem extract_containing_counterexample :
    (∃ s t, s ++ "Container/Trailer: ABCD1234567".data ++ t = advTextA.data) ∧
    (∃ s t, s ++ "Arriving per Test Ship (IMO123) on 01/02/2025".data ++ t = advTextA.data) ∧
    (extractShipmentData advTextA 1 1 2025).containerNumber = "X9" :=
  ⟨⟨"Container Trailer: X9 ".data,
      "\nArriving per Test Ship (IMO123) on 01/02/2025".data, rfl⟩,
   ⟨"Container Trailer: X9 Container/Trailer: ABCD1234567\n".data, "".data, rfl⟩,
   rfl⟩

theorem extract_scenarioA_witness :
    (extractShipmentData scenarioTextA 1 1 2025).mvField =
      (extractShipmentData scenarioTextA 1 1 2025).shipName ++ " " ++
        (extractShipmentData scenarioTextA 1 1 2025).arrivalDate ∧
    '/' ∉ ((extractShipmentData scenarioTextA 1 1 2025).arrivalDate).data :=
  ⟨extract_scenarioA.2.2.1 scenarioTextA 1 1 2025,
   extract_scenarioA.2.2.2 scenarioTextA 1 1 2025⟩

/-! ## Lemmas and claim theorems: manifest loader -/

theorem rowKeys_cons_complete (hd : EdiRow) (tl : List EdiRow) (a b : String)
    (href : effRef hd = some a) (hname : effName hd = some b)
    (ha : a ≠ "") (hb : b ≠ "") :
    rowKeys (hd :: tl) = trimJS a :: rowKeys tl := by
  simp [rowKeys, List.filterMap_cons, href, hname, ha, hb]

theorem rowKeys_cons_falsy (hd : EdiRow) (tl : List EdiRow) (a b : String)
    (href : effRef hd = some a) (hname : effName hd = some b)
    (hE : a = "" ∨ b = "") : rowKeys (hd :: tl) = rowKeys tl := by
  rcases hE with h1 | h1 <;> subst h1 <;>
    simp [rowKeys, List.filterMap_cons, href, hname]

theorem rowKeys_cons_noRef (hd : EdiRow) (tl : List EdiRow)
    (href : effRef hd = none) : rowKeys (hd :: tl) = rowKeys tl := by
  simp [rowKeys, List.filterMap_cons, href]

theorem rowKeys_cons_noName (hd : EdiRow) (tl : List EdiRow) (a : String)
    (href : effRef hd = some a) (hname : effName hd = none) :
    rowKeys (hd :: tl) = rowKeys tl := by
  simp [rowKeys, List.filterMap_cons, href, hname]

theorem lookup_insertReplace_self (m : List (String × String)) (k v : String) :
    lookupManifest (insertReplace m k v) k = some v := by
  induction m with
  | nil => simp [insertReplace, lookupManifest]
  | cons p rest ih =>
    rcases p with ⟨k', v'⟩
    by_cases h : k' = k
    · simp [insertReplace, h, lookupManifest]
    · simp [insertReplace, h, lookupManifest, ih]

theorem lookup_insertReplace_other (m : List (String × String)) (k v k' : String)
    (h : k' ≠ k) : lookupManifest (insertReplace m k v) k' = lookupManifest m k' := by
  have h2 : ¬ k = k' := fun he => h he.symm
  induction m with
  | nil => simp [insertReplace, lookupManifest, h2]
  | cons p rest ih =>
    rcases p with ⟨k'', v''⟩
    by_cases hk : k'' = k
    · subst hk
      simp [insertReplace, lookupManifest, h2]
    · simp only [insertReplace, if_neg hk, lookupManifest]
      by_cases hk2 : k'' = k'
      · simp [hk2]
      · simp [hk2, ih]

theorem processEdiAux_lookup_skip (rows : List EdiRow) :
    ∀ acc k, k ∉ rowKeys rows →
      lookupManifest (processEdiAux acc rows) k = lookupManifest acc k := by
  induction rows with
  | nil => intro acc k _; rfl
  | cons hd tl ih =>
    intro acc k hk
    rw [processEdiAux]
    cases href : effRef hd with
    | none =>
      rw [rowKeys_cons_noRef hd tl href] at hk
      rw [ih _ _ hk]
      simp [ediStep, href]
    | some a =>
      cases hname : effName hd with
      | none =>
        rw [rowKeys_cons_noName hd tl a href hname] at hk
        rw [ih _ _ hk]
        simp [ediStep, href, hname]
      | some b =>
        by_cases hE : a = "" ∨ b = ""
        · rw [rowKeys_cons_falsy hd tl a b href hname hE] at hk
          rw [ih _ _ hk]
          simp only [ediStep, href, hname]
          rw [if_pos hE]
        · have ha : a ≠ "" := fun h1 => hE (Or.inl h1)
          have hb : b ≠ "" := fun h1 => hE (Or.inr h1)
          rw [rowKeys_cons_complete hd tl a b href hname ha hb] at hk
          have hne : k ≠ trimJS a := fun he => hk (he ▸ List.mem_cons_self _ _)
          have hnm : k ∉ rowKeys tl := fun hm => hk (List.mem_cons_of_mem _ hm)
          rw [ih _ _ hnm]
          simp only [ediStep, href, hname]
          rw [if_neg hE]
          exact lookup_insertReplace_other _ _ _ _ hne

theorem processEdiAux_roundtrip (rows : List EdiRow) :
    ∀ acc (row : EdiRow) (r n : String), row ∈ rows → effRef row = some r →
      effName row = some n → r ≠ "" → n ≠ "" → (rowKeys rows).Nodup →
      lookupManifest (processEdiAux acc rows) (trimJS r) = some (trimJS n) := by
  induction rows with
  | nil => intro acc row r n hmem; exact absurd hmem (List.not_mem_nil row)
  | cons hd tl ih =>
    intro acc row r n hmem href hname hr hn hnd
    have hguard : ¬ (r = "" ∨ n = "") := not_or.mpr ⟨hr, hn⟩
    rcases List.mem_cons.mp hmem with heq | htl
    · subst heq
      rw [rowKeys_cons_complete row tl r n href hname hr hn] at hnd
      have hk : trimJS r ∉ rowKeys tl := (List.nodup_cons.mp hnd).1
      rw [processEdiAux, processEdiAux_lookup_skip tl _ _ hk]
      simp only [ediStep, href, hname]
      rw [if_neg hguard]
      exact lookup_insertReplace_self _ _ _
    · have hnd' : (rowKeys tl).Nodup := by
        cases href2 : effRef hd with
        | none => rwa [rowKeys_cons_noRef hd tl href2] at hnd
        | some a =>
          cases hname2 : effName hd with
          | none => rwa [rowKeys_cons_noName hd tl a href2 hname2] at hnd
          | some b =>
            by_cases hE : a = "" ∨ b = ""
            · rwa [rowKeys_cons_falsy hd tl a b href2 hname2 hE] at hnd
            · have ha : a ≠ "" := fun h1 => hE (Or.inl h1)
              have hb : b ≠ "" := fun h1 => hE (Or.inr h1)
              rw [rowKeys_cons_complete hd tl a b href2 hname2 ha hb] at hnd
              exact (List.nodup_cons.mp hnd).2
      rw [processEdiAux]
      exact ih _ row r n htl href hname hr hn hnd'

theorem processEdiAux_keys (rows : List EdiRow) :
    ∀ acc k, (lookupManifest (processEdiAux acc rows) k).isSome = true →
      (lookupManifest acc k).isSome = true ∨ k ∈ rowKeys rows := by
  induction rows with
  | nil => intro acc k h; exact Or.inl h
  | cons hd tl ih =>
    intro acc k h
    rw [processEdiAux] at h
    rcases ih _ _ h with hacc | hmem
    · cases href : effRef hd with
      | none =>
        left
        simpa [ediStep, href] using hacc
      | some a =>
        cases hname : effName hd with
        | none =>
          left
          simpa [ediStep, href, hname] using hacc
        | some b =>
          by_cases hE : a = "" ∨ b = ""
          · left
            simp only [ediStep, href, hname] at hacc
            rw [if_pos hE] at hacc
            exact hacc
          · by_cases hk : k = trimJS a
            · right
              have ha : a ≠ "" := fun h1 => hE (Or.inl h1)
              have hb : b ≠ "" := fun h1 => hE (Or.inr h1)
              rw [rowKeys_cons_complete hd tl a b href hname ha hb, hk]
              exact List.mem_cons_self _ _
            · left
              simp only [ediStep, href, hname] at hacc
              rw [if_neg hE, lookup_insertReplace_other _ _ _ _ hk] at hacc
              exact hacc
    · right
      cases href2 : effRef hd with
      | none => rwa [rowKeys_cons_noRef hd tl href2]
      | some a =>
        cases hname2 : effName hd with
        | none => rwa [rowKeys_cons_noName hd tl a href2 hname2]
        | some b =>
          by_cases hE : a = "" ∨ b = ""
          · rwa [rowKeys_cons_falsy hd tl a b href2 hname2 hE]
          · have ha : a ≠ "" := fun h1 => hE (Or.inl h1)
            have hb : b ≠ "" := fun h1 => hE (Or.inr h1)
            rw [rowKeys_cons_complete hd tl a b href2 hname2 ha hb]
            exact List.mem_cons_of_mem _ hmem

/-- C8 counterexample: the manifest loader does not treat `/`- and
`-`-separated reference forms as equivalent keys: loading a row whose
reference is `"123/456/789"` and looking up `"123-456-789"` finds nothing,
while looking up the verbatim form succeeds. -/
theorem manifest_sep_counterexample :
    lookupManifest (processEdiFile
        [EdiRow.mk (some "123/456/789") none (some "Acme Co") none]) "123/456/789" =
      some "Acme Co" ∧
    lookupManifest (processEdiFile
        [EdiRow.mk (some "123/456/789") none (some "Acme Co") none]) "123-456-789" =
      none := by
  exact ⟨rfl, rfl⟩

/-- C8 (amended): looking up the verbatim trimmed reference of any source
row that passes the loader's truthiness guard (reference and name both
present and non-empty, references unique after trimming) returns that
row's name with surrounding whitespace trimmed; but keys are stored
verbatim after trimming, so every key of the manifest is the trimmed
reference of some guard-passing row — the `/`- and `-`-separated forms of
the same digit groups are distinct keys, and loading one form does not
make the other retrievable. -/
theorem manifest_exact_roundtrip :
    (∀ rows (row : EdiRow) (r n : String), row ∈ rows → effRef row = some r →
      effName row = some n → r ≠ "" → n ≠ "" → (rowKeys rows).Nodup →
      lookupManifest (processEdiFile rows) (trimJS r) = some (trimJS n)) ∧
    (∀ rows k, (lookupManifest (processEdiFile rows) k).isSome = true →
      k ∈ rowKeys rows) := by
  constructor
  · intro rows row r n hmem href hname hr hn hnd
    exact processEdiAux_roundtrip rows [] row r n hmem href hname hr hn hnd
  · intro rows k h
    rcases processEdiAux_keys rows [] k h with habs | hmem
    · exact absurd habs (by simp [lookupManifest])
    · exact hmem

theorem manifest_exact_roundtrip_witness :
    lookupManifest (processEdiFile
        [EdiRow.mk (some "123/456/789") none (some " Acme Co ") none])
        (trimJS "123/456/789") = some (trimJS " Acme Co ") ∧
    "123/456/789" ∈ rowKeys
        [EdiRow.mk (some "123/456/789") none (some " Acme Co ") none] :=
  ⟨manifest_exact_roundtrip.1 _ _ _ _ (List.mem_singleton.mpr rfl) (by decide) (by decide)
      (by decide) (by decide) (by decide),
   manifest_exact_roundtrip.2
      [EdiRow.mk (some "123/456/789") none (some " Acme Co ") none] "123/456/789"
      (by decide)⟩

/-! ## Lemmas and claim theorems: batch orchestrator -/

/-- `result.success` as the batch loop branches on it. -/
def fileResultOk (fr : FileResult) : Bool :=
  match fr with
  | .ok _ => true
  | .error _ => false

/-- The success entry a file contributes (part_002 lines 128-133), `none`
for a failed file. -/
def toSuccEntry (folder : String) (f : String × FileResult) : Option SuccessEntry :=
  match f.2 with
  | .ok r => some { input := f.1, output := generateOutputFileName f.1 folder,
                    sizeMB := r.finalSizeMB, overlaysAdded := r.overlaysAdded }
  | .error _ => none

/-- The failure entry a file contributes (part_002 lines 136-139), `none`
for a successful file. -/
def toFailEntry (f : String × FileResult) : Option FailEntry :=
  match f.2 with
  | .ok _ => none
  | .error e => some { input := f.1, error := e }

theorem batch_foldl_spec (folder : String) :
    ∀ (files : List (String × FileResult)) (st : BatchState),
      files.foldl (batchStep folder) st =
        { processed := st.processed + files.length,
          successFiles := st.successFiles ++ files.filterMap (toSuccEntry folder),
          failedFiles := st.failedFiles ++ files.filterMap toFailEntry } := by
  intro files
  induction files with
  | nil => intro st; cases st; simp
  | cons f fs ih =>
    intro st
    rcases f with ⟨nm, fr⟩
    cases fr with
    | ok r =>
      rw [List.foldl_cons, ih]
      simp [batchStep, toSuccEntry, toFailEntry, List.filterMap_cons]
      omega
    | error e =>
      rw [List.foldl_cons, ih]
      simp [batchStep, toSuccEntry, toFailEntry, List.filterMap_cons]
      omega

theorem filterMap_succ_fail_length (folder : String) :
    ∀ files : List (String × FileResult),
      (files.filterMap (toSuccEntry folder)).length +
        (files.filterMap toFailEntry).length = files.length := by
  intro files
  induction files with
  | nil => rfl
  | cons f fs ih =>
    rcases f with ⟨nm, fr⟩
    cases fr with
    | ok r =>
      simp [List.filterMap_cons, toSuccEntry, toFailEntry]
      omega
    | error e =>
      simp [List.filterMap_cons, toSuccEntry, toFailEntry]
      omega

theorem succ_inputs_eq (folder : String) :
    ∀ files : List (String × FileResult),
      (files.filterMap (toSuccEntry folder)).map (·.input) =
        (files.filter (fun f => fileResultOk f.2)).map (·.1) := by
  intro files
  induction files with
  | nil => rfl
  | cons f fs ih =>
    rcases f with ⟨nm, fr⟩
    cases fr with
    | ok r => simpa [List.filterMap_cons, List.filter_cons, toSuccEntry, fileResultOk] using ih
    | error e => simpa [List.filterMap_cons, List.filter_cons, toSuccEntry, fileResultOk] using ih

theorem fail_inputs_eq :
    ∀ files : List (String × FileResult),
      (files.filterMap toFailEntry).map (·.input) =
        (files.filter (fun f => !fileResultOk f.2)).map (·.1) := by
  intro files
  induction files with
  | nil => rfl
  | cons f fs ih =>
    rcases f with ⟨nm, fr⟩
    cases fr with
    | ok r => simpa [List.filterMap_cons, List.filter_cons, toFailEntry, fileResultOk] using ih
    | error e => simpa [List.filterMap_cons, List.filter_cons, toFailEntry, fileResultOk] using ih

theorem filter_partition_count (p : String × FileResult → Bool) :
    ∀ (files : List (String × FileResult)) (nm : String),
      ((files.filter p).map (·.1)).count nm + ((files.filter (fun f => !p f)).map (·.1)).count nm =
        (files.map (·.1)).count nm := by
  intro files
  induction files with
  | nil => intro nm; rfl
  | cons f fs ih =>
    intro nm
    have hih := ih nm
    cases hp : p f with
    | true => simp [List.filter_cons, hp, List.count_cons]; omega
    | false => simp [List.filter_cons, hp, List.count_cons]; omega

/-- C10: after a batch run that got past shipment-data extraction, the
returned record satisfies `processed = successful + failed`, `successful`
and `failed` are the lengths of the success and failure lists, the success
and failure lists carry exactly the successful and failed input files in
order, every input file is counted exactly once across the two lists, and
for distinct input paths each discovered file appears in exactly one of
the two lists. -/
theorem processBatch_summary (folder : String) (files : List (String × FileResult)) :
    (processBatchResult folder files).processed =
      (processBatchResult folder files).successful + (processBatchResult folder files).failed ∧
    (processBatchResult folder files).successful =
      (processBatchResult folder files).successFiles.length ∧
    (processBatchResult folder files).failed =
      (processBatchResult folder files).failedFiles.length ∧
    ((processBatchResult folder files).successFiles.map (·.input)) =
      (files.filter (fun f => fileResultOk f.2)).map (·.1) ∧
    ((processBatchResult folder files).failedFiles.map (·.input)) =
      (files.filter (fun f => !fileResultOk f.2)).map (·.1) ∧
    (∀ nm, ((processBatchResult folder files).successFiles.map (·.input)).count nm +
        ((processBatchResult folder files).failedFiles.map (·.input)).count nm =
      (files.map (·.1)).count nm) ∧
    ((files.map (·.1)).Nodup → ∀ nm ∈ files.map (·.1),
      (nm ∈ (processBatchResult folder files).successFiles.map (·.input) ∧
        nm ∉ (processBatchResult folder files).failedFiles.map (·.input)) ∨
      (nm ∉ (processBatchResult folder files).successFiles.map (·.input) ∧
        nm ∈ (processBatchResult folder files).failedFiles.map (·.input))) := by
  have hfold := batch_foldl_spec folder files
    { processed := 0, successFiles := [], failedFiles := [] }
  have hres : processBatchResult folder files =
      { success := true, processed := files.length,
        successful := (files.filterMap (toSuccEntry folder)).length,
        failed := (files.filterMap toFailEntry).length,
        successFiles := files.filterMap (toSuccEntry folder),
        failedFiles := files.filterMap toFailEntry } := by
    rw [processBatchResult, runBatch, hfold]
    simp
  rw [hres]
  have hsi := succ_inputs_eq folder files
  have hfi := fail_inputs_eq files
  have hcount : ∀ nm, ((files.filterMap (toSuccEntry folder)).map (·.input)).count nm +
      ((files.filterMap toFailEntry).map (·.input)).count nm = (files.map (·.1)).count nm := by
    intro nm
    rw [hsi, hfi]
    exact filter_partition_count _ files nm
  refine ⟨filterMap_succ_fail_length folder files |>.symm, rfl, rfl, hsi, hfi, hcount, ?_⟩
  intro hnd nm hnm
  have h1 : (files.map (·.1)).count nm = 1 := List.count_eq_one_of_mem hnd hnm
  have hc := hcount nm
  rw [h1] at hc
  rcases Nat.eq_zero_or_pos (((files.filterMap (toSuccEntry folder)).map (·.input)).count nm)
    with hz | hp
  · right
    constructor
    · exact List.count_eq_zero.mp hz
    · have h3 : 0 < ((files.filterMap toFailEntry).map (·.input)).count nm := by omega
      exact List.count_pos_iff.mp h3
  · left
    constructor
    · exact List.count_pos_iff.mp hp
    · have : ((files.filterMap toFailEntry).map (·.input)).count nm = 0 := by omega
      exact List.count_eq_zero.mp this

theorem processBatch_summary_witness :
    ("a.pdf" ∈ ((processBatchResult "./out"
        [("a.pdf", (Except.ok (FileOk.mk 1 5) : FileResult)),
         ("b.pdf", (Except.error "PDF has only 3 pages, but target page is 9" : FileResult))]).successFiles.map
          (·.input)) ∧
      "a.pdf" ∉ ((processBatchResult "./out"
        [("a.pdf", (Except.ok (FileOk.mk 1 5) : FileResult)),
         ("b.pdf", (Except.error "PDF has only 3 pages, but target page is 9" : FileResult))]).failedFiles.map
          (·.input))) ∨
    ("a.pdf" ∉ ((processBatchResult "./out"
        [("a.pdf", (Except.ok (FileOk.mk 1 5) : FileResult)),
         ("b.pdf", (Except.error "PDF has only 3 pages, but target page is 9" : FileResult))]).successFiles.map
          (·.input)) ∧
      "a.pdf" ∈ ((processBatchResult "./out"
        [("a.pdf", (Except.ok (FileOk.mk 1 5) : FileResult)),
         ("b.pdf", (Except.error "PDF has only 3 pages, but target page is 9" : FileResult))]).failedFiles.map
          (·.input))) :=
  (processBatch_summary "./out"
      [("a.pdf", (Except.ok (FileOk.mk 1 5) : FileResult)),
       ("b.pdf", (Except.error "PDF has only 3 pages, but target page is 9" : FileResult))]).2.2.2.2.2.2
    (by decide) "a.pdf" (by decide)

end PdfTools
